import Mathlib

/-!
# Bulk deletion demo (`src/main.go`): batching and polling

A shallow embedding of the functions `batch`, `getOpsRequest`,
`isPollingComplete`, `logIfError`, `bulkDeleteVMs` and `bulkDeleteVMsInBatch`
of `src/main.go`, followed by the properties established about them.

Conventions of the embedding.

* A Go slice is a `List`; a `nil` slice and an empty slice are both `[]`.
* A Go pointer field that may be `nil` is an `Option`.
* A Go `int` is an `Int`, and every addition the source performs on it is
  followed by `wrapInt`, the two's complement wrap-around at 64 bits.
* A loop is a function with a fuel argument that counts the iterations it may
  still start; `Outcome.running` says the fuel ran out with the loop still
  going.  A run-time panic and `log.Fatal` are outcomes of their own.
-/

namespace BulkActions

/-! ## Outcomes of running Go code -/

/-- Run-time panics the embedded code can raise. -/
inductive Fault where
  /-- The panic of a slice expression `s[lo:hi]` whose bounds are not
  `0 ≤ lo ≤ hi ≤ cap(s)`. -/
  | sliceBounds
  deriving DecidableEq, Repr

/-- What running a piece of the program yields. -/
inductive Outcome (β : Type) where
  /-- The function returned `b`. -/
  | returned (b : β)
  /-- The goroutine panicked. -/
  | panicked (f : Fault)
  /-- The process was ended by `log.Fatal`, that is `os.Exit(1)`. -/
  | exited
  /-- The loop has not finished within the iterations allowed. -/
  | running
  deriving DecidableEq, Repr

/-! ## Machine integers -/

/-- Largest value of a Go `int` on a 64-bit platform. -/
def maxInt : Int := 2 ^ 63 - 1

/-- Smallest value of a Go `int` on a 64-bit platform. -/
def minInt : Int := -(2 ^ 63)

/-- Two's complement wrap-around of an integer result to 64 bits. -/
def wrapInt (x : Int) : Int := (x + 2 ^ 63) % 2 ^ 64 - 2 ^ 63

/-! ## `batch` -/

/-- The slice expression `input[lo:hi]`.  Go panics unless
`0 ≤ lo ≤ hi ≤ cap(input)`; `batch` only ever asks for `hi ≤ len(input)`, so
the capacity is taken to be the length. -/
def slice {α : Type} (input : List α) (lo hi : Int) : Option (List α) :=
  if 0 ≤ lo ∧ lo ≤ hi ∧ hi ≤ (input.length : Int) then
    some ((input.drop lo.toNat).take (hi.toNat - lo.toNat))
  else
    none

/-- The `for i := 0; i < len(input); i += batchSize` loop of `batch`, entered
with loop variable `i` and the batches appended so far. -/
def batchLoop {α : Type} (input : List α) (batchSize : Int) :
    Nat → Int → List (List α) → Outcome (List (List α))
  | fuel, i, batches =>
    if i < (input.length : Int) then
      match fuel with
      | 0 => Outcome.running
      | fuel + 1 =>
        let end0 := wrapInt (i + batchSize)
        let end1 := if end0 > (input.length : Int) then (input.length : Int) else end0
        match slice input i end1 with
        | none => Outcome.panicked Fault.sliceBounds
        | some b => batchLoop input batchSize fuel (wrapInt (i + batchSize)) (batches ++ [b])
    else
      Outcome.returned batches

/-- The function `batch[T any](input []T, batchSize int) [][]T`. -/
def batch {α : Type} (input : List α) (batchSize : Int) (fuel : Nat) :
    Outcome (List (List α)) :=
  batchLoop input batchSize fuel 0 []

/-! ## The remote services and their data -/

/-- Modelled from the spec: the SDK enumeration `armcomputeschedule.OperationState`
is not under `src/`; section 3 of the specification lists its values as Pending,
Running, Succeeded and Failed, and the source names `OperationStateSucceeded`. -/
inductive OperationState where
  | Pending
  | Running
  | Succeeded
  | Failed
  deriving DecidableEq, Repr

/-- The SDK record behind `result.Operation`, with the two fields the source
reads: `OperationID *string` and `State *OperationState`. -/
structure ResourceOperationDetails where
  OperationID : Option String
  State : Option OperationState
  deriving DecidableEq, Repr

/-- One element of `Results`, with the field the source reads:
`Operation`, a pointer that may be `nil`. -/
structure ResourceOperation where
  Operation : Option ResourceOperationDetails
  deriving DecidableEq, Repr

/-- The response of `VirtualMachinesExecuteDelete`, reduced to `Results`. -/
structure ExecuteDeleteResponse where
  Results : List ResourceOperation
  deriving DecidableEq, Repr

/-- The response of `VirtualMachinesGetOperationStatus`, reduced to `Results`. -/
structure GetOperationStatusResponse where
  Results : List ResourceOperation
  deriving DecidableEq, Repr

/-- The request `armcomputeschedule.ExecuteDeleteRequest` as `bulkDeleteVMs`
fills it in (`ExecutionParameters` is the empty record there). -/
structure ExecuteDeleteRequest where
  Resources : List (Option String)
  Correlationid : String
  ForceDeletion : Bool
  deriving DecidableEq, Repr

/-- The request `armcomputeschedule.GetOperationStatusRequest`. -/
structure GetOperationStatusRequest where
  OperationIDs : List (Option String)
  Correlationid : String
  deriving DecidableEq, Repr

/-- A Go `error` value; `none` is `nil`. -/
abbrev GoError := Option String

/-- What one goroutine sees of the outside world: the `(response, err)` pair
each client call returns, and the strings `uuid.New().String()` yields.  The
status service is indexed by the number of status queries made before. -/
structure Services where
  VirtualMachinesExecuteDelete : ExecuteDeleteRequest → ExecuteDeleteResponse × GoError
  VirtualMachinesGetOperationStatus :
    Nat → GetOperationStatusRequest → GetOperationStatusResponse × GoError
  newUUID : Nat → String

/-- A call made to a remote service. -/
inductive RemoteCall where
  | executeDelete (req : ExecuteDeleteRequest)
  | getOperationStatus (req : GetOperationStatusRequest)
  deriving DecidableEq, Repr

/-! ## `getOpsRequest`, `isPollingComplete`, `logIfError` -/

/-- The loop of `getOpsRequest` over `deleteResponse.Results`. -/
def collectOperationIds : List ResourceOperation → List (Option String) → List (Option String)
  | [], operationIds => operationIds
  | result :: rest, operationIds =>
    match result.Operation with
    | some operation =>
      if operation.OperationID ≠ none then
        collectOperationIds rest (operationIds ++ [operation.OperationID])
      else
        collectOperationIds rest operationIds
    | none => collectOperationIds rest operationIds

/-- The function `getOpsRequest`; `uuid` is the value of `uuid.New().String()`. -/
def getOpsRequest (deleteResponse : ExecuteDeleteResponse) (uuid : String) :
    GetOperationStatusRequest :=
  { OperationIDs := collectOperationIds deleteResponse.Results []
    Correlationid := uuid }

/-- The loop of `isPollingComplete` over `getOpsResponse.Results`. -/
def isPollingCompleteLoop : List ResourceOperation → Bool
  | [] => true
  | result :: rest =>
    match result.Operation with
    | none => false
    | some operation =>
      match operation.State with
      | none => false
      | some state =>
        if state ≠ OperationState.Succeeded then false else isPollingCompleteLoop rest

/-- The function `isPollingComplete`. -/
def isPollingComplete (getOpsResponse : GetOperationStatusResponse) : Bool :=
  isPollingCompleteLoop getOpsResponse.Results

/-- The function `logIfError`: `log.Fatal` on a non-nil error, which prints
and calls `os.Exit(1)`. -/
def logIfError (err : GoError) : Outcome Unit :=
  match err with
  | some _ => Outcome.exited
  | none => Outcome.returned ()

/-! ## `bulkDeleteVMs` as a transition system -/

/-- Where one call of `bulkDeleteVMs` stands. -/
inductive TaskState where
  /-- Called with these arguments; no request sent yet. -/
  | created (vmIDs : List (Option String)) (forceDelete : Bool)
  /-- In the poll loop with `pollingCompleted = false`, after `queries` status
  queries. -/
  | polling (deleteResp : ExecuteDeleteResponse) (queries : Nat)
  /-- The poll loop ended after `queries` status queries and the function returned. -/
  | completed (queries : Nat)
  /-- A call to `logIfError` ran `log.Fatal`. -/
  | exited
  deriving DecidableEq, Repr

/-- One step of `bulkDeleteVMs`: from `created`, the delete request and the
`logIfError` after it; from `polling`, one iteration of the poll loop.  The
result is the next state and the remote calls made. -/
def bulkDeleteVMsStep (svc : Services) : TaskState → TaskState × List RemoteCall
  | TaskState.created vmIDs forceDelete =>
    let req : ExecuteDeleteRequest :=
      { Resources := vmIDs, Correlationid := svc.newUUID 0, ForceDeletion := forceDelete }
    let (deleteResp, err) := svc.VirtualMachinesExecuteDelete req
    match logIfError err with
    | Outcome.returned _ => (TaskState.polling deleteResp 0, [RemoteCall.executeDelete req])
    | _ => (TaskState.exited, [RemoteCall.executeDelete req])
  | TaskState.polling deleteResp queries =>
    let req := getOpsRequest deleteResp (svc.newUUID (queries + 1))
    let (statusResp, err) := svc.VirtualMachinesGetOperationStatus queries req
    match logIfError err with
    | Outcome.returned _ =>
      if isPollingComplete statusResp then
        (TaskState.completed (queries + 1), [RemoteCall.getOperationStatus req])
      else
        (TaskState.polling deleteResp (queries + 1), [RemoteCall.getOperationStatus req])
    | _ => (TaskState.exited, [RemoteCall.getOperationStatus req])
  | TaskState.completed queries => (TaskState.completed queries, [])
  | TaskState.exited => (TaskState.exited, [])

/-- The state of a run of `bulkDeleteVMs` and the calls made so far, after
`fuel` further steps. -/
def bulkDeleteVMsRun (svc : Services) : Nat → TaskState × List RemoteCall →
    TaskState × List RemoteCall
  | 0, st => st
  | fuel + 1, (s, calls) =>
    let (s1, made) := bulkDeleteVMsStep svc s
    bulkDeleteVMsRun svc fuel (s1, calls ++ made)

/-- The function `bulkDeleteVMs`, run for `fuel` steps. -/
def bulkDeleteVMs (svc : Services) (vmIDs : List (Option String)) (forceDelete : Bool)
    (fuel : Nat) : TaskState × List RemoteCall :=
  bulkDeleteVMsRun svc fuel (TaskState.created vmIDs forceDelete, [])

/-! ## `bulkDeleteVMsInBatch`: the goroutines of one process -/

/-- The goroutines `bulkDeleteVMsInBatch` has launched, in launch order, and
the remote calls the process has made, each with the index of its goroutine. -/
structure Process where
  tasks : List TaskState
  calls : List (Nat × RemoteCall)
  deriving DecidableEq, Repr

/-- Some goroutine has run `log.Fatal`: the process is gone. -/
def Process.exited (p : Process) : Bool :=
  p.tasks.any (fun t => decide (t = TaskState.exited))

/-- Every goroutine has returned, so `wg.Wait()` returns. -/
def Process.finished (p : Process) : Bool :=
  p.tasks.all (fun t => match t with
    | TaskState.completed _ => true
    | _ => false)

/-- The scheduler lets goroutine `j` take its next step, unless the process
has exited. -/
def Process.step (svcs : Nat → Services) (p : Process) (j : Nat) : Process :=
  if p.exited then p
  else
    match p.tasks.get? j with
    | none => p
    | some t =>
      let (t1, made) := bulkDeleteVMsStep (svcs j) t
      { tasks := p.tasks.set j t1, calls := p.calls ++ made.map (fun c => (j, c)) }

/-- The process after the scheduler has run the goroutines in the order `sched`. -/
def Process.run (svcs : Nat → Services) (p : Process) (sched : List Nat) : Process :=
  sched.foldl (Process.step svcs) p

/-- The launch loop of `bulkDeleteVMsInBatch`: one goroutine calling
`bulkDeleteVMs(batch, forceDelete)` for each batch of `batch(vmIDs, 100)`, none
of which has run yet.  The batching loop is given `len(vmIDs)` iterations. -/
def bulkDeleteVMsInBatch (vmIDs : List (Option String)) (forceDelete : Bool) :
    Outcome Process :=
  match batch vmIDs 100 vmIDs.length with
  | Outcome.returned batches =>
    Outcome.returned
      { tasks := batches.map (fun b => TaskState.created b forceDelete), calls := [] }
  | Outcome.panicked f => Outcome.panicked f
  | Outcome.exited => Outcome.exited
  | Outcome.running => Outcome.running

/-- The properties of the batches the loop still has to produce from index `i`. -/
def ChunksFrom {α : Type} (input : List α) (s i : Nat) (rest : List (List α)) : Prop :=
  rest.flatten = input.drop i ∧
  (∀ b ∈ rest, 0 < b.length ∧ b.length ≤ s) ∧
  (∀ b ∈ rest.dropLast, b.length = s) ∧
  rest.length = (input.length - i + s - 1) / s ∧
  (s ∣ input.length - i → ∀ b ∈ rest, b.length = s)

/-- The identifiers a list of results carries: those of the results whose
`Operation` and `Operation.OperationID` are both present, in order. -/
def operationIdsOf (results : List ResourceOperation) : List String :=
  results.filterMap (fun r => r.Operation.bind (fun op => op.OperationID))

/-- A result reports state `st`. -/
def ResourceOperation.hasState (r : ResourceOperation) (st : OperationState) : Prop :=
  ∃ op, r.Operation = some op ∧ op.State = some st

/-! ## Concrete services and responses used as test inputs -/

/-- A result for operation `op-1` in state `st`. -/
def operationInState (st : OperationState) : ResourceOperation :=
  { Operation := some { OperationID := some "op-1", State := some st } }

/-- Services that give every delete request the reply `deleteReply` and every
status query the reply `statusReply`; the `n`-th identifier drawn is `n + 1`
letters `u`. -/
def constServices (deleteReply : ExecuteDeleteResponse × GoError)
    (statusReply : GetOperationStatusResponse × GoError) : Services :=
  { VirtualMachinesExecuteDelete := fun _ => deleteReply
    VirtualMachinesGetOperationStatus := fun _ _ => statusReply
    newUUID := fun n => String.mk (List.replicate (n + 1) 'u') }

/-- Services whose one operation stays in state Running for ever. -/
def stuckServices : Services :=
  constServices ({ Results := [operationInState OperationState.Running] }, none)
    ({ Results := [operationInState OperationState.Running] }, none)

/-- Services that accept a delete request without starting any operation and
answer a status query with no results. -/
def idleServices : Services :=
  constServices ({ Results := [] }, none) ({ Results := [] }, none)

/-- Services whose delete request fails with an error. -/
def rejectingServices : Services :=
  constServices ({ Results := [] }, some "submission rejected") ({ Results := [] }, none)

/-- Services whose one operation is reported Failed by every status query. -/
def failedServices : Services :=
  constServices ({ Results := [operationInState OperationState.Running] }, none)
    ({ Results := [operationInState OperationState.Failed] }, none)

/-- The first goroutine meets `rejectingServices`, every other one `idleServices`. -/
def firstBatchRejected (j : Nat) : Services :=
  if j = 0 then rejectingServices else idleServices

/-- A list of 101 identifiers, which `batch` splits in two. -/
def vmIDs101 : List (Option String) := List.replicate 101 (some "vm")

/-- The two goroutines `bulkDeleteVMsInBatch` launches for `vmIDs101`. -/
def launched101 : Process :=
  { tasks := [TaskState.created (List.replicate 100 (some "vm")) true,
              TaskState.created [some "vm"] true],
    calls := [] }

/-! ## Auxiliary facts about `batch` -/

theorem wrapInt_of_inRange (x : Int) (hlo : minInt ≤ x) (hhi : x ≤ maxInt) : wrapInt x = x := by
  unfold wrapInt
  unfold minInt at hlo
  unfold maxInt at hhi
  omega

theorem slice_chunk {α : Type} (input : List α) (i s : Nat) (hi : i < input.length) :
    slice input (i : Int)
        (if ((i : Int) + (s : Int)) > (input.length : Int) then (input.length : Int)
         else (i : Int) + (s : Int))
      = some ((input.drop i).take s) := by
  unfold slice
  by_cases h : ((i : Int) + (s : Int)) > (input.length : Int)
  · have h1 : input.length - i ≤ s := by omega
    have h2 : (input.drop i).length ≤ input.length - i := by simp
    rw [if_pos h, if_pos (by omega)]
    simp only [Int.toNat_ofNat]
    rw [List.take_of_length_le (by omega), List.take_of_length_le (by omega)]
  · rw [if_neg h, if_pos (by omega)]
    have h3 : ((i : Int) + (s : Int)).toNat - (i : Int).toNat = s := by omega
    rw [h3]
    simp

theorem batchLoop_done {α : Type} (input : List α) (batchSize : Int) (fuel : Nat) (i : Int)
    (acc : List (List α)) (h : ¬ i < (input.length : Int)) :
    batchLoop input batchSize fuel i acc = Outcome.returned acc := by
  unfold batchLoop
  rw [if_neg h]

theorem batchLoop_step {α : Type} (input : List α) (s : Nat) (fuel i : Nat)
    (acc : List (List α)) (hi : i < input.length) (hfit : (i : Int) + (s : Int) ≤ maxInt) :
    batchLoop input (s : Int) (fuel + 1) (i : Int) acc
      = batchLoop input (s : Int) fuel ((i + s : Nat) : Int) (acc ++ [(input.drop i).take s]) := by
  have hw : wrapInt ((i : Int) + (s : Int)) = (i : Int) + (s : Int) := by
    apply wrapInt_of_inRange _ _ hfit
    unfold minInt
    omega
  rw [batchLoop]
  rw [if_pos (by exact_mod_cast hi)]
  simp only [hw]
  rw [slice_chunk input i s hi]
  simp only [Nat.cast_add]

theorem chunksFrom_nil {α : Type} (input : List α) (s i : Nat) (hs : 0 < s)
    (h : input.length ≤ i) : ChunksFrom input s i [] := by
  refine ⟨?_, ?_, ?_, ?_, ?_⟩
  · simp [List.drop_eq_nil_of_le h]
  · intro b hb; simp at hb
  · intro b hb; simp at hb
  · have h0 : input.length - i + s - 1 < s := by omega
    simp [Nat.div_eq_of_lt h0]
  · intro _ b hb; simp at hb

theorem chunksFrom_cons {α : Type} (input : List α) (s i : Nat) (hs : 0 < s)
    (hi : i < input.length) (rest : List (List α)) (h : ChunksFrom input s (i + s) rest) :
    ChunksFrom input s i ((input.drop i).take s :: rest) := by
  obtain ⟨hjoin, hsize, hfull, hlen, hdvd⟩ := h
  have hb0 : ((input.drop i).take s).length = min s (input.length - i) := by simp
  refine ⟨?_, ?_, ?_, ?_, ?_⟩
  · rw [List.flatten_cons, hjoin]
    have : input.drop (i + s) = (input.drop i).drop s := by
      rw [List.drop_drop, Nat.add_comm]
    rw [this, List.take_append_drop]
  · intro b hb
    rcases List.mem_cons.mp hb with rfl | hb
    · rw [hb0]; omega
    · exact hsize b hb
  · intro b hb
    cases rest with
    | nil => simp at hb
    | cons r rs =>
      rw [List.dropLast_cons₂] at hb
      rcases List.mem_cons.mp hb with rfl | hb
      · have hpos : 0 < (input.length - (i + s) + s - 1) / s := by
          rw [← hlen]; simp
        have : s ≤ input.length - (i + s) + s - 1 := by
          by_contra hc
          rw [Nat.div_eq_of_lt (by omega)] at hpos
          omega
        rw [hb0]; omega
      · exact hfull b hb
  · rw [List.length_cons, hlen]
    by_cases hc : i + s < input.length
    · have e : input.length - i + s - 1 = (input.length - (i + s) + s - 1) + s := by omega
      rw [e, Nat.add_div_right _ hs]
    · have e1 : input.length - (i + s) + s - 1 = s - 1 := by omega
      have e2 : input.length - i + s - 1 = (input.length - i - 1) + s := by omega
      rw [e1, e2, Nat.add_div_right _ hs, Nat.div_eq_of_lt (by omega),
        Nat.div_eq_of_lt (by omega)]
  · intro hd b hb
    have hle : s ≤ input.length - i := Nat.le_of_dvd (by omega) hd
    rcases List.mem_cons.mp hb with rfl | hb
    · rw [hb0]; omega
    · refine hdvd ?_ b hb
      have e : input.length - (i + s) = input.length - i - s := by omega
      rw [e]
      exact Nat.dvd_sub' hd (dvd_refl s)

/-- From index `i` on, the loop of `batch` returns, whatever fuel covers the
remaining elements, one and the same list of further batches. -/
theorem batchLoop_spec {α : Type} (input : List α) (s : Nat) (hs : 0 < s)
    (hmax : (s : Int) ≤ maxInt) (hlen : input.length ≤ 2 ^ 62) :
    ∀ (n i : Nat), (i = 0 ∨ s ≤ i) → input.length ≤ i + n →
      ∃ rest : List (List α),
        (∀ (fuel : Nat) (acc : List (List α)), input.length ≤ i + fuel →
          batchLoop input (s : Int) fuel (i : Int) acc = Outcome.returned (acc ++ rest)) ∧
        ChunksFrom input s i rest := by
  intro n
  induction n with
  | zero =>
    intro i _ hn
    refine ⟨[], ?_, chunksFrom_nil input s i hs (by omega)⟩
    intro fuel acc _
    rw [batchLoop_done input _ fuel _ acc (by omega)]
    simp
  | succ n ih =>
    intro i hinv hn
    by_cases hi : i < input.length
    · obtain ⟨rest, hrun, hprops⟩ := ih (i + s) (Or.inr (by omega)) (by omega)
      refine ⟨(input.drop i).take s :: rest, ?_, chunksFrom_cons input s i hs hi rest hprops⟩
      intro fuel acc hfuel
      have hfit : (i : Int) + (s : Int) ≤ maxInt := by
        unfold maxInt at hmax ⊢
        rcases hinv with h0 | hle
        · subst h0; simpa using hmax
        · have : i + s ≤ 2 ^ 63 - 1 := by omega
          omega
      cases fuel with
      | zero => omega
      | succ fuel =>
        rw [batchLoop_step input s fuel i acc hi hfit, hrun fuel _ (by omega)]
        simp
    · refine ⟨[], ?_, chunksFrom_nil input s i hs (by omega)⟩
      intro fuel acc _
      rw [batchLoop_done input _ fuel _ acc (by omega)]
      simp

/-- For a positive batch size, `batch` returns one list of batches for every
fuel that covers the input, and that list has the properties `ChunksFrom`. -/
theorem batch_spec {α : Type} (input : List α) (batchSize : Int) (hpos : 0 < batchSize)
    (hmax : batchSize ≤ maxInt) (hlen : input.length ≤ 2 ^ 62) :
    ∃ batches : List (List α),
      (∀ fuel : Nat, input.length ≤ fuel →
        batch input batchSize fuel = Outcome.returned batches) ∧
      ChunksFrom input batchSize.toNat 0 batches := by
  obtain ⟨s, rfl⟩ := Int.eq_ofNat_of_zero_le (le_of_lt hpos)
  have hs : 0 < s := by exact_mod_cast hpos
  obtain ⟨rest, hrun, hprops⟩ :=
    batchLoop_spec input s hs hmax hlen input.length 0 (Or.inl rfl) (by omega)
  refine ⟨rest, ?_, by simpa using hprops⟩
  intro fuel hfuel
  have := hrun fuel [] (by omega)
  simpa [batch] using this

theorem batchLoop_zero_running {α : Type} (input : List α) (hne : input ≠ []) :
    ∀ (fuel : Nat) (acc : List (List α)),
      batchLoop input 0 fuel 0 acc = Outcome.running := by
  have hlen : (0 : Int) < (input.length : Int) := by
    have := List.length_pos.mpr hne
    exact_mod_cast this
  have hw : wrapInt (0 + 0) = 0 := by decide
  have hs : slice input 0 0 = some [] := by
    unfold slice
    rw [if_pos (by omega)]
    simp
  intro fuel
  induction fuel with
  | zero =>
    intro acc
    rw [batchLoop, if_pos hlen]
  | succ fuel ih =>
    intro acc
    rw [batchLoop, if_pos hlen]
    simp only [hw]
    rw [if_neg (by omega), hs]
    exact ih _

theorem batch_negative_panics {α : Type} (input : List α) (batchSize : Int)
    (hne : input ≠ []) (hneg : batchSize < 0) (hmin : minInt ≤ batchSize) (fuel : Nat) :
    batch input batchSize (fuel + 1) = Outcome.panicked Fault.sliceBounds := by
  have hlen : (0 : Int) < (input.length : Int) := by
    have := List.length_pos.mpr hne
    exact_mod_cast this
  have hw : wrapInt (0 + batchSize) = batchSize := by
    rw [Int.zero_add]
    apply wrapInt_of_inRange _ hmin
    unfold maxInt
    omega
  have hs : slice input 0 batchSize = none := by
    unfold slice
    rw [if_neg (by omega)]
  unfold batch
  rw [batchLoop, if_pos hlen]
  simp only [hw]
  rw [if_neg (by omega), hs]

/-! ## Auxiliary facts about the remote calls -/

theorem collectOperationIds_eq (results : List ResourceOperation) :
    ∀ acc : List (Option String),
      collectOperationIds results acc = acc ++ (operationIdsOf results).map some := by
  induction results with
  | nil => intro acc; simp [collectOperationIds, operationIdsOf]
  | cons r rest ih =>
    intro acc
    obtain ⟨op⟩ := r
    cases op with
    | none => simpa [collectOperationIds, operationIdsOf] using ih acc
    | some d =>
      obtain ⟨oid, st⟩ := d
      cases oid with
      | none => simpa [collectOperationIds, operationIdsOf] using ih acc
      | some v =>
        have := ih (acc ++ [some v])
        simpa [collectOperationIds, operationIdsOf] using this

theorem isPollingCompleteLoop_iff (results : List ResourceOperation) :
    isPollingCompleteLoop results = true ↔
      ∀ r ∈ results, r.hasState OperationState.Succeeded := by
  induction results with
  | nil => simp [isPollingCompleteLoop]
  | cons r rest ih =>
    obtain ⟨op⟩ := r
    cases op with
    | none => simp [isPollingCompleteLoop, ResourceOperation.hasState]
    | some d =>
      obtain ⟨oid, st⟩ := d
      cases st with
      | none => simp [isPollingCompleteLoop, ResourceOperation.hasState]
      | some v =>
        cases v <;> simp [isPollingCompleteLoop, ResourceOperation.hasState, ih]

theorem step_polling_ok (svc : Services) (deleteResp : ExecuteDeleteResponse) (k : Nat)
    (statusResp : GetOperationStatusResponse)
    (h : svc.VirtualMachinesGetOperationStatus k (getOpsRequest deleteResp (svc.newUUID (k + 1)))
      = (statusResp, none)) :
    bulkDeleteVMsStep svc (TaskState.polling deleteResp k)
      = (if isPollingComplete statusResp then TaskState.completed (k + 1)
         else TaskState.polling deleteResp (k + 1),
        [RemoteCall.getOperationStatus (getOpsRequest deleteResp (svc.newUUID (k + 1)))]) := by
  simp only [bulkDeleteVMsStep, h, logIfError]
  split <;> rfl

theorem step_polling_error (svc : Services) (deleteResp : ExecuteDeleteResponse) (k : Nat)
    (h : (svc.VirtualMachinesGetOperationStatus k
      (getOpsRequest deleteResp (svc.newUUID (k + 1)))).2 ≠ none) :
    (bulkDeleteVMsStep svc (TaskState.polling deleteResp k)).1 = TaskState.exited := by
  simp only [bulkDeleteVMsStep]
  cases hr : (svc.VirtualMachinesGetOperationStatus k
      (getOpsRequest deleteResp (svc.newUUID (k + 1)))).2 with
  | none => exact absurd hr h
  | some e => simp [logIfError]

theorem step_created_error (svc : Services) (vmIDs : List (Option String)) (forceDelete : Bool)
    (h : (svc.VirtualMachinesExecuteDelete
      { Resources := vmIDs, Correlationid := svc.newUUID 0, ForceDeletion := forceDelete }).2
        ≠ none) :
    (bulkDeleteVMsStep svc (TaskState.created vmIDs forceDelete)).1 = TaskState.exited := by
  simp only [bulkDeleteVMsStep]
  cases hr : (svc.VirtualMachinesExecuteDelete
      { Resources := vmIDs, Correlationid := svc.newUUID 0, ForceDeletion := forceDelete }).2 with
  | none => exact absurd hr h
  | some e => simp [logIfError]

/-- While the status responses stay free of errors and incomplete, the poll
loop goes on: after `n` iterations it has made `n` queries and is still polling. -/
theorem run_while_incomplete (svc : Services) (deleteResp : ExecuteDeleteResponse) :
    ∀ (n k : Nat) (calls : List RemoteCall),
      (∀ j, k ≤ j → j < k + n →
        (svc.VirtualMachinesGetOperationStatus j
            (getOpsRequest deleteResp (svc.newUUID (j + 1)))).2 = none ∧
        isPollingComplete (svc.VirtualMachinesGetOperationStatus j
            (getOpsRequest deleteResp (svc.newUUID (j + 1)))).1 = false) →
      (bulkDeleteVMsRun svc n (TaskState.polling deleteResp k, calls)).1
          = TaskState.polling deleteResp (k + n) ∧
        (bulkDeleteVMsRun svc n (TaskState.polling deleteResp k, calls)).2.length
          = calls.length + n := by
  intro n
  induction n with
  | zero => intro k calls _; simp [bulkDeleteVMsRun]
  | succ n ih =>
    intro k calls h
    obtain ⟨he, hc⟩ := h k (le_refl k) (by omega)
    have hstep := step_polling_ok svc deleteResp k
      (svc.VirtualMachinesGetOperationStatus k
        (getOpsRequest deleteResp (svc.newUUID (k + 1)))).1
      (by rw [← he])
    rw [hc] at hstep
    simp only [Bool.false_eq_true, if_false] at hstep
    rw [bulkDeleteVMsRun]
    simp only [hstep]
    obtain ⟨h1, h2⟩ := ih (k + 1)
      (calls ++ [RemoteCall.getOperationStatus (getOpsRequest deleteResp (svc.newUUID (k + 1)))])
      (fun j hj1 hj2 => h j (by omega) (by omega))
    refine ⟨?_, ?_⟩
    · rw [h1]; congr 1; omega
    · rw [h2]; simp; omega

theorem Process.step_of_exited (svcs : Nat → Services) (p : Process) (j : Nat)
    (h : p.exited = true) : Process.step svcs p j = p := by
  unfold Process.step
  rw [if_pos h]

theorem Process.run_of_exited (svcs : Nat → Services) (p : Process) (sched : List Nat)
    (h : p.exited = true) : Process.run svcs p sched = p := by
  induction sched with
  | nil => rfl
  | cons j rest ih =>
    unfold Process.run at ih ⊢
    rw [List.foldl_cons, Process.step_of_exited svcs p j h]
    exact ih

/-! ## Properties of `batch` -/

/-- C1: for every list `input` of at most 2^62 elements (the empty list
included) and every Go `int` `batchSize > 0`, `batch` returns, and the
concatenation of the batches it returns, in order, is exactly `input`. -/
theorem batch_concat_eq_input {α : Type} (input : List α) (batchSize : Int) (fuel : Nat)
    (hpos : 0 < batchSize) (hmax : batchSize ≤ maxInt) (hlen : input.length ≤ 2 ^ 62)
    (hfuel : input.length ≤ fuel) :
    ∃ batches : List (List α),
      batch input batchSize fuel = Outcome.returned batches ∧ batches.flatten = input := by
  obtain ⟨batches, hrun, hjoin, _⟩ := batch_spec input batchSize hpos hmax hlen
  exact ⟨batches, hrun fuel hfuel, by simpa using hjoin⟩

/-- Witness of C1 at the list `[1, 2, 3, 4, 5]` with batch size 2. -/
theorem batch_concat_eq_input_witness :
    (0 : Int) < 2 ∧ (2 : Int) ≤ maxInt ∧ [1, 2, 3, 4, 5].length ≤ 2 ^ 62 ∧
      ∃ batches : List (List Nat),
        batch [1, 2, 3, 4, 5] 2 5 = Outcome.returned batches ∧
          batches.flatten = [1, 2, 3, 4, 5] :=
  ⟨by decide, by decide, by simp,
    batch_concat_eq_input [1, 2, 3, 4, 5] 2 5 (by decide) (by decide) (by simp) (by simp)⟩

/-- C2: for every list `input` of at most 2^62 elements and every Go `int`
`batchSize > 0`, every batch `batch` returns is non-empty and has at most
`batchSize` elements, and every batch other than the last has exactly
`batchSize` elements. -/
theorem batch_sizes {α : Type} (input : List α) (batchSize : Int) (fuel : Nat)
    (hpos : 0 < batchSize) (hmax : batchSize ≤ maxInt) (hlen : input.length ≤ 2 ^ 62)
    (hfuel : input.length ≤ fuel) :
    ∃ batches : List (List α),
      batch input batchSize fuel = Outcome.returned batches ∧
      (∀ b ∈ batches, 0 < b.length ∧ (b.length : Int) ≤ batchSize) ∧
      (∀ (k : Nat) (b : List α), k + 1 < batches.length → batches[k]? = some b →
        (b.length : Int) = batchSize) := by
  obtain ⟨batches, hrun, _, hsize, hfull, _⟩ := batch_spec input batchSize hpos hmax hlen
  have hcast : ((batchSize.toNat : Nat) : Int) = batchSize := Int.toNat_of_nonneg (le_of_lt hpos)
  refine ⟨batches, hrun fuel hfuel, ?_, ?_⟩
  · intro b hb
    obtain ⟨h1, h2⟩ := hsize b hb
    refine ⟨h1, ?_⟩
    rw [← hcast]
    exact_mod_cast h2
  · intro k b hk hb
    have hk2 : k < batches.dropLast.length := by
      rw [List.length_dropLast]; omega
    have hmem : b ∈ batches.dropLast := by
      have hkb : k < batches.length := by omega
      have hb2 : batches[k] = b := by
        rw [List.getElem?_eq_getElem hkb] at hb
        exact Option.some.inj hb
      have hd : batches.dropLast[k] = b := by
        rw [List.getElem_dropLast batches k hk2]
        exact hb2
      rw [← hd]
      exact List.getElem_mem hk2
    rw [← hcast]
    exact_mod_cast hfull b hmem

/-- Witness of C2 at the list `[1, 2, 3, 4, 5]` with batch size 2. -/
theorem batch_sizes_witness :
    (0 : Int) < 2 ∧ (2 : Int) ≤ maxInt ∧
      ∃ batches : List (List Nat),
        batch [1, 2, 3, 4, 5] 2 5 = Outcome.returned batches ∧
        (∀ b ∈ batches, 0 < b.length ∧ (b.length : Int) ≤ 2) ∧
        (∀ (k : Nat) (b : List Nat), k + 1 < batches.length → batches[k]? = some b →
          (b.length : Int) = 2) :=
  ⟨by decide, by decide,
    batch_sizes [1, 2, 3, 4, 5] 2 5 (by decide) (by decide) (by simp) (by simp)⟩

/-- C3, refuted as stated: on the one-element list `[7]`, `batch` with batch
size `-1` ends in a slice-bounds panic at its first iteration, and with batch
size `0` it is still running after any number of iterations. -/
theorem batch_nonpositive_counterexample :
    batch [7] (-1) 1 = Outcome.panicked Fault.sliceBounds ∧
      (∀ fuel : Nat, batch [7] 0 fuel = Outcome.running) :=
  ⟨by decide, fun fuel => batchLoop_zero_running [7] (by simp) fuel []⟩

/-- C3, amended: for every non-empty `input` and every Go `int` `batchSize ≤ 0`,
`batch` returns no list of batches and has no InvalidArgument failure: for
`batchSize < 0` the first iteration ends in a slice-bounds panic, and for
`batchSize = 0` the loop is still running after any number of iterations. -/
theorem batch_nonpositive {α : Type} (input : List α) (batchSize : Int)
    (hne : input ≠ []) (hle : batchSize ≤ 0) (hmin : minInt ≤ batchSize) :
    (batchSize < 0 →
        ∀ fuel : Nat, batch input batchSize (fuel + 1) = Outcome.panicked Fault.sliceBounds) ∧
      (batchSize = 0 → ∀ fuel : Nat, batch input batchSize fuel = Outcome.running) ∧
      (∀ (fuel : Nat) (batches : List (List α)),
        batch input batchSize fuel ≠ Outcome.returned batches) := by
  have hzero : batchSize = 0 → ∀ fuel : Nat, batch input batchSize fuel = Outcome.running := by
    intro h fuel
    subst h
    exact batchLoop_zero_running input hne fuel []
  have hneg : batchSize < 0 →
      ∀ fuel : Nat, batch input batchSize (fuel + 1) = Outcome.panicked Fault.sliceBounds :=
    fun h fuel => batch_negative_panics input batchSize hne h hmin fuel
  refine ⟨hneg, hzero, ?_⟩
  intro fuel batches hret
  rcases lt_or_eq_of_le hle with h | h
  · cases fuel with
    | zero =>
      have hlen : (0 : Int) < (input.length : Int) := by
        have := List.length_pos.mpr hne
        exact_mod_cast this
      unfold batch at hret
      rw [batchLoop, if_pos hlen] at hret
      cases hret
    | succ fuel =>
      rw [hneg h fuel] at hret
      cases hret
  · rw [hzero h fuel] at hret
    cases hret

/-- Witness of the amended C3 at the list `[7]` with batch size `-1`. -/
theorem batch_nonpositive_witness :
    ([7] : List Nat) ≠ [] ∧ (-1 : Int) ≤ 0 ∧ minInt ≤ (-1 : Int) ∧
      batch [7] (-1) 1 = Outcome.panicked Fault.sliceBounds :=
  ⟨by simp, by decide, by decide,
    (batch_nonpositive [7] (-1) (by simp) (by decide) (by decide)).1 (by decide) 0⟩

/-- The number of batches: for a positive batch size `s`, `batch` returns
the rounded-up quotient of the length by `s` many batches. -/
theorem batch_length {α : Type} (input : List α) (s : Nat) (hs : 0 < s)
    (hmax : (s : Int) ≤ maxInt) (hlen : input.length ≤ 2 ^ 62) :
    ∃ batches : List (List α),
      (∀ fuel : Nat, input.length ≤ fuel →
        batch input (s : Int) fuel = Outcome.returned batches) ∧
      batches.length = (input.length + s - 1) / s ∧
      (s ∣ input.length → ∀ b ∈ batches, b.length = s) := by
  obtain ⟨batches, hrun, _, _, _, hcount, hdvd⟩ :=
    batch_spec input (s : Int) (by exact_mod_cast hs) hmax hlen
  simp only [Int.toNat_ofNat, Nat.sub_zero] at hcount hdvd
  exact ⟨batches, hrun, hcount, hdvd⟩

theorem Process.run_no_tasks (svcs : Nat → Services) (sched : List Nat) :
    Process.run svcs { tasks := [], calls := [] } sched = { tasks := [], calls := [] } := by
  induction sched with
  | nil => rfl
  | cons j rest ih =>
    unfold Process.run at ih ⊢
    rw [List.foldl_cons]
    have : Process.step svcs { tasks := [], calls := [] } j = { tasks := [], calls := [] } := by
      simp [Process.step, Process.exited]
    rw [this]
    exact ih

/-- C5: for the empty input list `batch` returns no batch at all, whatever
the batch size, and `bulkDeleteVMsInBatch` on an empty identifier list launches
no goroutine, so that under every schedule no remote call is made. -/
theorem batch_empty {α : Type} (batchSize : Int) (fuel : Nat) (forceDelete : Bool)
    (svcs : Nat → Services) (sched : List Nat) :
    batch ([] : List α) batchSize fuel = Outcome.returned [] ∧
      bulkDeleteVMsInBatch [] forceDelete = Outcome.returned { tasks := [], calls := [] } ∧
      (Process.run svcs { tasks := [], calls := [] } sched).tasks = [] ∧
      (Process.run svcs { tasks := [], calls := [] } sched).calls = [] := by
  have h : ∀ (β : Type) (n : Nat) (bs : Int),
      batch ([] : List β) bs n = Outcome.returned [] := by
    intro β n bs
    unfold batch
    rw [batchLoop_done]
    simp
  refine ⟨h α fuel batchSize, ?_, ?_, ?_⟩
  · unfold bulkDeleteVMsInBatch
    rw [h]
    rfl
  · rw [Process.run_no_tasks]
  · rw [Process.run_no_tasks]

/-- C4: `bulkDeleteVMsInBatch` launches exactly one `bulkDeleteVMs` goroutine
per batch of `batch(vmIDs, 100)`, so the number of goroutines is the length
divided by 100, rounded up; 1000 identifiers give 10 goroutines of 100
identifiers each; and for any positive batch size `s`, `batch` returns the
length divided by `s`, rounded up, many batches. -/
theorem bulkDeleteVMsInBatch_tasks (vmIDs : List (Option String)) (forceDelete : Bool)
    (hlen : vmIDs.length ≤ 2 ^ 62) :
    (∃ batches : List (List (Option String)),
      (∀ fuel : Nat, vmIDs.length ≤ fuel →
        batch vmIDs 100 fuel = Outcome.returned batches) ∧
      bulkDeleteVMsInBatch vmIDs forceDelete = Outcome.returned
        { tasks := batches.map (fun b => TaskState.created b forceDelete), calls := [] } ∧
      (batches.map (fun b => TaskState.created b forceDelete)).length
        = (vmIDs.length + 99) / 100 ∧
      (vmIDs.length = 1000 →
        (batches.map (fun b => TaskState.created b forceDelete)).length = 10 ∧
          ∀ b ∈ batches, b.length = 100)) ∧
    (∀ (s fuel : Nat), 0 < s → (s : Int) ≤ maxInt → vmIDs.length ≤ fuel →
      ∃ batches : List (List (Option String)),
        batch vmIDs (s : Int) fuel = Outcome.returned batches ∧
          batches.length = (vmIDs.length + s - 1) / s) := by
  constructor
  · obtain ⟨batches, hrun, hcount, hdvd⟩ :=
      batch_length vmIDs 100 (by decide) (by decide) hlen
    have hrun2 : ∀ fuel : Nat, vmIDs.length ≤ fuel →
        batch vmIDs 100 fuel = Outcome.returned batches := by
      intro fuel hfuel
      exact_mod_cast hrun fuel hfuel
    have hcount2 : batches.length = (vmIDs.length + 99) / 100 := by
      rw [hcount]
      have e : vmIDs.length + 100 - 1 = vmIDs.length + 99 := by omega
      rw [e]
    refine ⟨batches, hrun2, ?_, ?_, ?_⟩
    · unfold bulkDeleteVMsInBatch
      rw [hrun2 vmIDs.length (le_refl _)]
    · rw [List.length_map, hcount2]
    · intro h1000
      rw [List.length_map, hcount2, h1000]
      refine ⟨by decide, hdvd ?_⟩
      rw [h1000]
      decide
  · intro s fuel hs hmax hfuel
    obtain ⟨batches, hrun, hcount, _⟩ := batch_length vmIDs s hs hmax hlen
    exact ⟨batches, hrun fuel hfuel, hcount⟩

/-- Witness of C4 at a list of 1000 identifiers. -/
theorem bulkDeleteVMsInBatch_tasks_witness :
    (List.replicate 1000 (some "vm")).length ≤ 2 ^ 62 ∧
      ∃ batches : List (List (Option String)),
        bulkDeleteVMsInBatch (List.replicate 1000 (some "vm")) true = Outcome.returned
          { tasks := batches.map (fun b => TaskState.created b true), calls := [] } ∧
        (batches.map (fun b => TaskState.created b true)).length = 10 ∧
        ∀ b ∈ batches, b.length = 100 := by
  have hlen : (List.replicate 1000 (some "vm")).length ≤ 2 ^ 62 := by
    rw [List.length_replicate]; decide
  obtain ⟨⟨batches, _, hlaunch, _, h1000⟩, _⟩ :=
    bulkDeleteVMsInBatch_tasks (List.replicate 1000 (some "vm")) true hlen
  obtain ⟨h10, h100⟩ := h1000 (List.length_replicate 1000 (some "vm"))
  exact ⟨hlen, batches, hlaunch, h10, h100⟩

/-! ## Properties of the remote calls -/

theorem bulkDeleteVMsRun_state_succ (svc : Services) :
    ∀ (n : Nat) (st : TaskState × List RemoteCall),
      (bulkDeleteVMsRun svc (n + 1) st).1
        = (bulkDeleteVMsStep svc (bulkDeleteVMsRun svc n st).1).1 := by
  intro n
  induction n with
  | zero =>
    intro st
    obtain ⟨t, calls⟩ := st
    simp [bulkDeleteVMsRun]
  | succ n ih =>
    intro st
    obtain ⟨t, calls⟩ := st
    rw [bulkDeleteVMsRun]
    simp only []
    rw [ih]
    conv_rhs => rw [bulkDeleteVMsRun]

theorem bulkDeleteVMs_submitted (svc : Services) (vmIDs : List (Option String))
    (forceDelete : Bool) (deleteResp : ExecuteDeleteResponse) (n : Nat)
    (hsubmit : svc.VirtualMachinesExecuteDelete
      { Resources := vmIDs, Correlationid := svc.newUUID 0, ForceDeletion := forceDelete }
        = (deleteResp, none)) :
    bulkDeleteVMs svc vmIDs forceDelete (n + 1)
      = bulkDeleteVMsRun svc n (TaskState.polling deleteResp 0,
          [RemoteCall.executeDelete
            { Resources := vmIDs, Correlationid := svc.newUUID 0,
              ForceDeletion := forceDelete }]) := by
  unfold bulkDeleteVMs
  rw [bulkDeleteVMsRun]
  simp [bulkDeleteVMsStep, hsubmit, logIfError]

/-- After an accepted delete request, as long as the status responses stay free
of errors and incomplete, `bulkDeleteVMs` is still polling. -/
theorem bulkDeleteVMs_while_incomplete (svc : Services) (vmIDs : List (Option String))
    (forceDelete : Bool) (deleteResp : ExecuteDeleteResponse) (n : Nat)
    (hsubmit : svc.VirtualMachinesExecuteDelete
      { Resources := vmIDs, Correlationid := svc.newUUID 0, ForceDeletion := forceDelete }
        = (deleteResp, none))
    (hinc : ∀ j, j < n →
      (svc.VirtualMachinesGetOperationStatus j
          (getOpsRequest deleteResp (svc.newUUID (j + 1)))).2 = none ∧
      isPollingComplete (svc.VirtualMachinesGetOperationStatus j
          (getOpsRequest deleteResp (svc.newUUID (j + 1)))).1 = false) :
    (bulkDeleteVMs svc vmIDs forceDelete (n + 1)).1 = TaskState.polling deleteResp n ∧
      (bulkDeleteVMs svc vmIDs forceDelete (n + 1)).2.length = n + 1 := by
  rw [bulkDeleteVMs_submitted svc vmIDs forceDelete deleteResp n hsubmit]
  obtain ⟨h1, h2⟩ := run_while_incomplete svc deleteResp n 0
    [RemoteCall.executeDelete
      { Resources := vmIDs, Correlationid := svc.newUUID 0, ForceDeletion := forceDelete }]
    (fun j _ hj => hinc j (by omega))
  refine ⟨?_, ?_⟩
  · rw [h1]; congr 1; omega
  · rw [h2]; simp; omega

/-- C9: the `OperationIDs` of `getOpsRequest(deleteResponse)` are exactly the
operation ids of the results whose `Operation` and `Operation.OperationID` are
both non-nil, in the order of the results; so there are at most as many as
there are results, and when every result carries an operation id the list is
the full list of handles. -/
theorem getOpsRequest_operationIDs (deleteResponse : ExecuteDeleteResponse) (uuid : String) :
    (getOpsRequest deleteResponse uuid).OperationIDs
        = (deleteResponse.Results.filterMap
            (fun r => r.Operation.bind (fun op => op.OperationID))).map some ∧
      (getOpsRequest deleteResponse uuid).OperationIDs.length
        ≤ deleteResponse.Results.length ∧
      ((∀ r ∈ deleteResponse.Results,
          ∃ op id, r.Operation = some op ∧ op.OperationID = some id) →
        (getOpsRequest deleteResponse uuid).OperationIDs
          = deleteResponse.Results.map
              (fun r => r.Operation.bind (fun op => op.OperationID))) := by
  have hids : (getOpsRequest deleteResponse uuid).OperationIDs
      = (deleteResponse.Results.filterMap
          (fun r => r.Operation.bind (fun op => op.OperationID))).map some := by
    simp [getOpsRequest, collectOperationIds_eq, operationIdsOf]
  refine ⟨hids, ?_, ?_⟩
  · rw [hids, List.length_map]
    exact List.length_filterMap_le _ _
  · intro hall
    rw [hids]
    generalize deleteResponse.Results = results at hall
    induction results with
    | nil => rfl
    | cons r rest ih =>
      obtain ⟨op, id, h1, h2⟩ := hall r (List.mem_cons_self r rest)
      have hrest := ih (fun x hx => hall x (List.mem_cons_of_mem r hx))
      simp [List.filterMap_cons, h1, h2, hrest]

/-- C10: `isPollingComplete(response)` is true exactly when every result has
a non-nil `Operation` with a non-nil `State` equal to Succeeded; it is true for
a response without results; and a batch whose delete response yields no
operation ids, queried on a status service that answers one result per id
asked, ends its poll loop after a single status query. -/
theorem isPollingComplete_iff (getOpsResponse : GetOperationStatusResponse) :
    (isPollingComplete getOpsResponse = true ↔
        ∀ r ∈ getOpsResponse.Results,
          ∃ op, r.Operation = some op ∧ op.State = some OperationState.Succeeded) ∧
      isPollingComplete { Results := [] } = true ∧
      (∀ (svc : Services) (vmIDs : List (Option String)) (forceDelete : Bool)
          (deleteResp : ExecuteDeleteResponse),
        svc.VirtualMachinesExecuteDelete
            { Resources := vmIDs, Correlationid := svc.newUUID 0,
              ForceDeletion := forceDelete } = (deleteResp, none) →
        (getOpsRequest deleteResp (svc.newUUID 1)).OperationIDs = [] →
        (svc.VirtualMachinesGetOperationStatus 0
            (getOpsRequest deleteResp (svc.newUUID 1))).2 = none →
        (svc.VirtualMachinesGetOperationStatus 0
            (getOpsRequest deleteResp (svc.newUUID 1))).1.Results.length
          = (getOpsRequest deleteResp (svc.newUUID 1)).OperationIDs.length →
        bulkDeleteVMs svc vmIDs forceDelete 2
          = (TaskState.completed 1,
              [RemoteCall.executeDelete
                { Resources := vmIDs, Correlationid := svc.newUUID 0,
                  ForceDeletion := forceDelete },
               RemoteCall.getOperationStatus
                (getOpsRequest deleteResp (svc.newUUID 1))])) := by
  refine ⟨?_, rfl, ?_⟩
  · unfold isPollingComplete
    exact isPollingCompleteLoop_iff getOpsResponse.Results
  · intro svc vmIDs forceDelete deleteResp hsubmit hids herr hlen
    rw [hids, List.length_nil, List.length_eq_zero] at hlen
    have hcomplete : isPollingComplete (svc.VirtualMachinesGetOperationStatus 0
        (getOpsRequest deleteResp (svc.newUUID 1))).1 = true := by
      unfold isPollingComplete
      rw [hlen]
      rfl
    have hreply : svc.VirtualMachinesGetOperationStatus 0
        (getOpsRequest deleteResp (svc.newUUID (0 + 1)))
        = ((svc.VirtualMachinesGetOperationStatus 0
            (getOpsRequest deleteResp (svc.newUUID 1))).1, none) := by
      rw [← herr]
    rw [bulkDeleteVMs_submitted svc vmIDs forceDelete deleteResp 1 hsubmit]
    rw [bulkDeleteVMsRun]
    simp only []
    rw [step_polling_ok svc deleteResp 0 _ hreply, hcomplete]
    simp [bulkDeleteVMsRun]

/-- Witness of C10: on `idleServices` a one-identifier batch is submitted and
its poll loop ends after one status query. -/
theorem isPollingComplete_iff_witness :
    (getOpsRequest { Results := [] } (idleServices.newUUID 1)).OperationIDs = [] ∧
      (bulkDeleteVMs idleServices [some "vm"] true 2).1 = TaskState.completed 1 := by
  have h := (isPollingComplete_iff { Results := [] }).2.2 idleServices [some "vm"] true
    { Results := [] } rfl rfl rfl rfl
  exact ⟨rfl, by rw [h]⟩

/-- C6, refuted as stated: the status response whose one result is in state
Failed has every result in a terminal state, yet `isPollingComplete` returns
false on it, and on services that keep reporting it `bulkDeleteVMs` is still
polling after any number of status queries. -/
theorem failed_not_complete_counterexample :
    (∀ r ∈ [operationInState OperationState.Failed],
        r.hasState OperationState.Succeeded ∨ r.hasState OperationState.Failed) ∧
      isPollingComplete { Results := [operationInState OperationState.Failed] } = false ∧
      (∀ n : Nat, (bulkDeleteVMs failedServices [some "vm"] true (n + 1)).1
        = TaskState.polling { Results := [operationInState OperationState.Running] } n) := by
  refine ⟨?_, by decide, ?_⟩
  · intro r hr
    rw [List.mem_singleton] at hr
    subst hr
    exact Or.inr ⟨_, rfl, rfl⟩
  · intro n
    exact (bulkDeleteVMs_while_incomplete failedServices [some "vm"] true
      { Results := [operationInState OperationState.Running] } n rfl
      (fun _ _ => ⟨rfl, rfl⟩)).1

/-- C6, amended: for every status response in which each result reports
Succeeded or Failed, `isPollingComplete` returns true exactly when no result
reports Failed; a response of that kind with a Failed result does not end the
poll loop of `bulkDeleteVMs`, which goes on to its next iteration. -/
theorem isPollingComplete_terminal (getOpsResponse : GetOperationStatusResponse)
    (hterm : ∀ r ∈ getOpsResponse.Results,
      r.hasState OperationState.Succeeded ∨ r.hasState OperationState.Failed) :
    (isPollingComplete getOpsResponse = true ↔
        ∀ r ∈ getOpsResponse.Results, ¬ r.hasState OperationState.Failed) ∧
      (∀ (svc : Services) (deleteResp : ExecuteDeleteResponse) (k : Nat),
        svc.VirtualMachinesGetOperationStatus k
            (getOpsRequest deleteResp (svc.newUUID (k + 1))) = (getOpsResponse, none) →
        (∃ r ∈ getOpsResponse.Results, r.hasState OperationState.Failed) →
        (bulkDeleteVMsStep svc (TaskState.polling deleteResp k)).1
          = TaskState.polling deleteResp (k + 1)) := by
  have hiff : isPollingComplete getOpsResponse = true ↔
      ∀ r ∈ getOpsResponse.Results, ¬ r.hasState OperationState.Failed := by
    unfold isPollingComplete
    rw [isPollingCompleteLoop_iff]
    constructor
    · intro h r hr hfailed
      obtain ⟨op, h1, h2⟩ := h r hr
      obtain ⟨op2, h3, h4⟩ := hfailed
      rw [h1] at h3
      cases h3
      rw [h2] at h4
      cases h4
    · intro h r hr
      rcases hterm r hr with hs | hf
      · exact hs
      · exact absurd hf (h r hr)
  refine ⟨hiff, ?_⟩
  intro svc deleteResp k hreply hfailed
  have hfalse : isPollingComplete getOpsResponse = false := by
    cases hc : isPollingComplete getOpsResponse with
    | false => rfl
    | true =>
      obtain ⟨r, hr, hf⟩ := hfailed
      exact absurd hf (hiff.mp hc r hr)
  rw [step_polling_ok svc deleteResp k getOpsResponse hreply, hfalse]
  simp

/-- Witness of the amended C6 at the response with one Failed result. -/
theorem isPollingComplete_terminal_witness :
    (∀ r ∈ [operationInState OperationState.Failed],
        r.hasState OperationState.Succeeded ∨ r.hasState OperationState.Failed) ∧
      (bulkDeleteVMsStep failedServices
          (TaskState.polling { Results := [operationInState OperationState.Running] } 0)).1
        = TaskState.polling { Results := [operationInState OperationState.Running] } 1 := by
  have hterm : ∀ r ∈ [operationInState OperationState.Failed],
      r.hasState OperationState.Succeeded ∨ r.hasState OperationState.Failed := by
    intro r hr
    rw [List.mem_singleton] at hr
    subst hr
    exact Or.inr ⟨_, rfl, rfl⟩
  exact ⟨hterm,
    (isPollingComplete_terminal { Results := [operationInState OperationState.Failed] }
      hterm).2 failedServices { Results := [operationInState OperationState.Running] } 0 rfl
      ⟨_, List.mem_singleton.mpr rfl, _, rfl, rfl⟩⟩

/-- C7, refuted as stated: on services whose one operation stays Running,
`bulkDeleteVMs` never returns: after `n + 1` steps it has made the delete
request and `n` status queries and is still in the poll loop, for every `n`. -/
theorem poll_unbounded_counterexample :
    isPollingComplete { Results := [operationInState OperationState.Running] } = false ∧
      (∀ n : Nat,
        (bulkDeleteVMs stuckServices [some "vm"] true (n + 1)).1
            = TaskState.polling { Results := [operationInState OperationState.Running] } n ∧
          (bulkDeleteVMs stuckServices [some "vm"] true (n + 1)).2.length = n + 1) :=
  ⟨by decide, fun n =>
    bulkDeleteVMs_while_incomplete stuckServices [some "vm"] true
      { Results := [operationInState OperationState.Running] } n rfl
      (fun _ _ => ⟨rfl, rfl⟩)⟩

/-- C7, amended: the poll loop of `bulkDeleteVMs` has no deadline.  After an
accepted delete request, if the first `n` status responses are free of errors
and incomplete, the loop has made exactly `n` status queries and is still
polling; it ends with the next query exactly when that response is free of
errors and complete, and otherwise polls on. -/
theorem poll_loop_no_deadline (svc : Services) (vmIDs : List (Option String))
    (forceDelete : Bool) (deleteResp : ExecuteDeleteResponse) (n : Nat)
    (hsubmit : svc.VirtualMachinesExecuteDelete
      { Resources := vmIDs, Correlationid := svc.newUUID 0, ForceDeletion := forceDelete }
        = (deleteResp, none))
    (hinc : ∀ j, j < n →
      (svc.VirtualMachinesGetOperationStatus j
          (getOpsRequest deleteResp (svc.newUUID (j + 1)))).2 = none ∧
      isPollingComplete (svc.VirtualMachinesGetOperationStatus j
          (getOpsRequest deleteResp (svc.newUUID (j + 1)))).1 = false) :
    (bulkDeleteVMs svc vmIDs forceDelete (n + 1)).1 = TaskState.polling deleteResp n ∧
      (bulkDeleteVMs svc vmIDs forceDelete (n + 1)).2.length = n + 1 ∧
      ((svc.VirtualMachinesGetOperationStatus n
          (getOpsRequest deleteResp (svc.newUUID (n + 1)))).2 = none →
        (bulkDeleteVMs svc vmIDs forceDelete (n + 2)).1
          = if isPollingComplete (svc.VirtualMachinesGetOperationStatus n
                (getOpsRequest deleteResp (svc.newUUID (n + 1)))).1
            then TaskState.completed (n + 1)
            else TaskState.polling deleteResp (n + 1)) := by
  obtain ⟨h1, h2⟩ :=
    bulkDeleteVMs_while_incomplete svc vmIDs forceDelete deleteResp n hsubmit hinc
  refine ⟨h1, h2, ?_⟩
  intro herr
  have hreply : svc.VirtualMachinesGetOperationStatus n
      (getOpsRequest deleteResp (svc.newUUID (n + 1)))
      = ((svc.VirtualMachinesGetOperationStatus n
          (getOpsRequest deleteResp (svc.newUUID (n + 1)))).1, none) := by
    rw [← herr]
  unfold bulkDeleteVMs at h1 ⊢
  rw [bulkDeleteVMsRun_state_succ svc (n + 1), h1,
    step_polling_ok svc deleteResp n _ hreply]

/-- Witness of the amended C7 on `stuckServices`, after three status queries. -/
theorem poll_loop_no_deadline_witness :
    stuckServices.VirtualMachinesExecuteDelete
        { Resources := [some "vm"], Correlationid := stuckServices.newUUID 0,
          ForceDeletion := true }
        = ({ Results := [operationInState OperationState.Running] }, none) ∧
      (bulkDeleteVMs stuckServices [some "vm"] true 4).1
        = TaskState.polling { Results := [operationInState OperationState.Running] } 3 :=
  ⟨rfl, (poll_loop_no_deadline stuckServices [some "vm"] true
    { Results := [operationInState OperationState.Running] } 3 rfl
    (fun _ _ => ⟨rfl, rfl⟩)).1⟩

/-! ## Errors and the other batches -/

theorem Process.step_exits (svcs : Nat → Services) (p : Process) (j : Nat) (t : TaskState)
    (hlive : p.exited = false) (ht : p.tasks.get? j = some t)
    (hstep : (bulkDeleteVMsStep (svcs j) t).1 = TaskState.exited) :
    Process.step svcs p j
      = { tasks := p.tasks.set j TaskState.exited,
          calls := p.calls ++ (bulkDeleteVMsStep (svcs j) t).2.map (fun c => (j, c)) } := by
  cases h : bulkDeleteVMsStep (svcs j) t with
  | mk t1 made =>
    rw [h] at hstep
    simp only at hstep
    subst hstep
    have ht2 : p.tasks[j]? = some t := by simpa using ht
    simp [Process.step, hlive, ht2, h]

/-- C8, refuted as stated: `bulkDeleteVMsInBatch` on 101 identifiers launches
two goroutines; when the delete request of the first is rejected and that
goroutine runs first, the process has exited, and whatever the scheduler does
next the second batch is never submitted: the only remote call ever made is the
rejected delete request. -/
theorem error_isolation_counterexample :
    bulkDeleteVMsInBatch vmIDs101 true = Outcome.returned launched101 ∧
      (∀ sched : List Nat,
        (Process.run firstBatchRejected launched101 (0 :: sched)).exited = true ∧
        (Process.run firstBatchRejected launched101 (0 :: sched)).finished = false ∧
        (Process.run firstBatchRejected launched101 (0 :: sched)).tasks
          = [TaskState.exited, TaskState.created [some "vm"] true] ∧
        (Process.run firstBatchRejected launched101 (0 :: sched)).calls
          = [(0, RemoteCall.executeDelete
              { Resources := List.replicate 100 (some "vm"),
                Correlationid := rejectingServices.newUUID 0,
                ForceDeletion := true })]) := by
  constructor
  · decide
  · intro sched
    have h0 : Process.step firstBatchRejected launched101 0
        = { tasks := [TaskState.exited, TaskState.created [some "vm"] true],
            calls := [(0, RemoteCall.executeDelete
              { Resources := List.replicate 100 (some "vm"),
                Correlationid := rejectingServices.newUUID 0,
                ForceDeletion := true })] } := by
      rw [Process.step_exits firstBatchRejected launched101 0
        (TaskState.created (List.replicate 100 (some "vm")) true) rfl rfl rfl]
      rfl
    have hrun : Process.run firstBatchRejected launched101 (0 :: sched)
        = { tasks := [TaskState.exited, TaskState.created [some "vm"] true],
            calls := [(0, RemoteCall.executeDelete
              { Resources := List.replicate 100 (some "vm"),
                Correlationid := rejectingServices.newUUID 0,
                ForceDeletion := true })] } := by
      unfold Process.run
      rw [List.foldl_cons, h0]
      exact Process.run_of_exited firstBatchRejected _ sched rfl
    rw [hrun]
    exact ⟨rfl, rfl, rfl, rfl⟩

/-- C8, amended: an error of the delete request or of a status query of one
batch is not isolated: `logIfError` ends the process.  When a goroutine takes
the step in which its request returns an error, the process has exited,
`bulkDeleteVMsInBatch` does not finish, the other goroutines are where they
were, and under every further schedule no goroutine takes another step and no
further remote call is made. -/
theorem error_ends_process (svcs : Nat → Services) (p : Process) (j : Nat) (t : TaskState)
    (hlive : p.exited = false) (ht : p.tasks.get? j = some t)
    (herr :
      (∃ vmIDs forceDelete, t = TaskState.created vmIDs forceDelete ∧
        ((svcs j).VirtualMachinesExecuteDelete
          { Resources := vmIDs, Correlationid := (svcs j).newUUID 0,
            ForceDeletion := forceDelete }).2 ≠ none) ∨
      (∃ deleteResp k, t = TaskState.polling deleteResp k ∧
        ((svcs j).VirtualMachinesGetOperationStatus k
          (getOpsRequest deleteResp ((svcs j).newUUID (k + 1)))).2 ≠ none)) :
    (Process.step svcs p j).exited = true ∧
      (Process.step svcs p j).finished = false ∧
      (∀ i, i ≠ j → (Process.step svcs p j).tasks.get? i = p.tasks.get? i) ∧
      (∀ sched : List Nat,
        Process.run svcs (Process.step svcs p j) sched = Process.step svcs p j) := by
  have hstep : (bulkDeleteVMsStep (svcs j) t).1 = TaskState.exited := by
    rcases herr with ⟨vmIDs, forceDelete, rfl, h⟩ | ⟨deleteResp, k, rfl, h⟩
    · exact step_created_error (svcs j) vmIDs forceDelete h
    · exact step_polling_error (svcs j) deleteResp k h
  have hj : j < p.tasks.length := by
    rw [List.get?_eq_some] at ht
    exact ht.1
  have hmem : TaskState.exited ∈ p.tasks.set j TaskState.exited :=
    List.mem_iff_getElem.mpr ⟨j, by simpa using hj, by simp⟩
  have hexited : (Process.step svcs p j).exited = true := by
    rw [Process.step_exits svcs p j t hlive ht hstep]
    unfold Process.exited
    rw [List.any_eq_true]
    exact ⟨TaskState.exited, hmem, by simp⟩
  refine ⟨hexited, ?_, ?_, ?_⟩
  · rw [Process.step_exits svcs p j t hlive ht hstep]
    unfold Process.finished
    rw [List.all_eq_false]
    exact ⟨TaskState.exited, hmem, by simp⟩
  · intro i hi
    rw [Process.step_exits svcs p j t hlive ht hstep]
    simp only [List.get?_eq_getElem?]
    exact List.getElem?_set_ne (Ne.symm hi)
  · intro sched
    exact Process.run_of_exited svcs _ sched hexited

/-- Witness of the amended C8: the first of two batches is rejected. -/
theorem error_ends_process_witness :
    ((firstBatchRejected 0).VirtualMachinesExecuteDelete
        { Resources := [some "a"], Correlationid := (firstBatchRejected 0).newUUID 0,
          ForceDeletion := true }).2 ≠ none ∧
      (Process.step firstBatchRejected
        { tasks := [TaskState.created [some "a"] true, TaskState.created [some "b"] true],
          calls := [] } 0).exited = true := by
  have herr : ((firstBatchRejected 0).VirtualMachinesExecuteDelete
      { Resources := [some "a"], Correlationid := (firstBatchRejected 0).newUUID 0,
        ForceDeletion := true }).2 ≠ none := by
    intro h
    cases h
  exact ⟨herr,
    (error_ends_process firstBatchRejected
      { tasks := [TaskState.created [some "a"] true, TaskState.created [some "b"] true],
        calls := [] } 0 (TaskState.created [some "a"] true) rfl rfl
      (Or.inl ⟨[some "a"], true, rfl, herr⟩)).1⟩

end BulkActions
